import Mathlib

set_option autoImplicit false

/-!
Verification of the fragmented-MP4 core (`fragment.go`, `nmhd.go`, `wvtt.go`)
of the mp4ff library, against its natural-language specification.

Bytes are modelled as `Nat` (each meant to be `< 256`; theorems that need it
carry the bound as a hypothesis).  Go machine integers are modelled as
`Nat`/`Int` with explicit reductions modulo `2^32` / `2^64` where the Go code
can overflow.  Go functions that can panic (nil-pointer dereference,
out-of-capacity slicing) are modelled with an outer `Option`: `none` is a
panic, `some r` a normal return of `r`.

Types that the analysed files use but do not define (`TrafBox`, `TfhdBox`,
`TrunBox`, `MdatBox`, ... and the header/bitstream helpers) are modelled from
the specification; each such definition says so in its doc comment.
-/

/-! ## Byte-level helpers (bitstream primitives, component A of the spec) -/

/-- Big-endian value of four bytes. -/
def be4 (b0 b1 b2 b3 : Nat) : Nat :=
  ((b0 * 256 + b1) * 256 + b2) * 256 + b3

/-- Big-endian two-byte encoding of a 16-bit value (Go `WriteUint16`). -/
def u16be (n : Nat) : List Nat :=
  [n / 2 ^ 8 % 256, n % 256]

/-- Big-endian four-byte encoding of a 32-bit value
(Go `binary.BigEndian.PutUint32`; a larger `Nat` is truncated mod `2^32`
exactly as Go's `uint32` conversion does). -/
def u32be (n : Nat) : List Nat :=
  [n / 2 ^ 24 % 256, n / 2 ^ 16 % 256, n / 2 ^ 8 % 256, n % 256]

/-- Big-endian eight-byte encoding of a 64-bit value. -/
def u64be (n : Nat) : List Nat :=
  [n / 2 ^ 56 % 256, n / 2 ^ 48 % 256, n / 2 ^ 40 % 256, n / 2 ^ 32 % 256,
   n / 2 ^ 24 % 256, n / 2 ^ 16 % 256, n / 2 ^ 8 % 256, n % 256]

/-- Go's `int64(x)` reinterpretation of a `uint64` value (`x < 2^64`). -/
def i64ofU64 (n : Nat) : Int :=
  if n < 2 ^ 63 then (n : Int) else (n : Int) - 2 ^ 64

/-- Two's-complement wrap of an exact integer sum into `int64` range,
the effect of Go `int64 + int64` addition. -/
def wrapI64 (x : Int) : Int :=
  (x + 2 ^ 63) % 2 ^ 64 - 2 ^ 63

/-- Go's `uint64(x)` reinterpretation of an `int64` value. -/
def u64ofI64 (x : Int) : Nat :=
  (x % 2 ^ 64).toNat

/-- Go `uint64` subtraction `a - b` (wraparound), for `a b < 2^64`. -/
def u64sub (a b : Nat) : Nat :=
  (a + 2 ^ 64 - b % 2 ^ 64) % 2 ^ 64

/-! ## Fragment-side data model

`fragment.go` only defines `Fragment`; the box types it manipulates live in
other files of the repository that are not part of the analysed sources, so
they are modelled from the specification's data model (spec section 3). -/

/-- Modelled from the spec: per-sample tuple `(duration, size, flags,
cts_offset)`; `cts_offset` is signed. -/
structure Sample where
  Dur : Nat
  Size : Nat
  Flags : Nat
  Cts : Int
deriving DecidableEq

/-- Modelled from the spec: the flattened sample form, `{decode_time, flags,
size, data}` plus the raw per-sample tuple it came from. -/
structure FullSample where
  Sample : Sample
  DecodeTime : Nat
  Data : List Nat
deriving DecidableEq

/-- Modelled from the spec: `trex` carries movie-level defaults
`{track_id, default_sample_duration, default_sample_size,
default_sample_flags}`. -/
structure TrexBox where
  TrackID : Nat
  DefaultSampleDuration : Nat
  DefaultSampleSize : Nat
  DefaultSampleFlags : Nat
deriving DecidableEq

/-- Modelled from the spec: `tfhd` is `track_id` plus an option-bitmap over
`{base_data_offset, sample_description_index, default_sample_duration,
default_sample_size, default_sample_flags}` and the semantic flag
`default_base_is_moof`; present fields are modelled as `some`.
`HasBaseDataOffset()` of the source is `BaseDataOffset.isSome`, and
`DefaultBaseIfMoof()` is the `DefaultBaseIsMoof` field. -/
structure TfhdBox where
  TrackID : Nat
  BaseDataOffset : Option Nat
  SampleDescriptionIndex : Option Nat
  DefaultSampleDuration : Option Nat
  DefaultSampleSize : Option Nat
  DefaultSampleFlags : Option Nat
  DefaultBaseIsMoof : Bool
  DurationIsEmpty : Bool
deriving DecidableEq

/-- Modelled from the spec: `tfdt` holds `base_media_decode_time`. -/
structure TfdtBox where
  BaseMediaDecodeTime : Nat
deriving DecidableEq

/-- Modelled from the spec: `trun` is `sample_count` (the length of
`Samples`), an optional signed `data_offset`, an optional
`first_sample_flags`, and per-sample tuples whose four fields are present
or absent uniformly across the run, per flag bits (modelled as the four
`Has...` booleans). -/
structure TrunBox where
  DataOffset : Option Int
  FirstSampleFlags : Option Nat
  HasSampleDuration : Bool
  HasSampleSize : Bool
  HasSampleFlags : Bool
  HasSampleCts : Bool
  Samples : List Sample
deriving DecidableEq

/-- Modelled from the spec: `trun` sample count (`SampleCount()` in the
source repository) is the number of samples in the run. -/
def TrunBox.SampleCount (t : TrunBox) : Nat :=
  t.Samples.length

/-- Modelled from the spec: `traf` holds exactly one `tfhd`, at most one
`tfdt`, and an ordered list of `trun`s.  The source's `traf.Trun` fast
accessor is the first element of `Truns`. -/
structure TrafBox where
  Tfhd : TfhdBox
  Tfdt : Option TfdtBox
  Truns : List TrunBox
deriving DecidableEq

/-- Modelled from the spec: `mdat` is an opaque byte blob plus its
`payload_absolute_offset` — the byte offset of the first payload byte in
the stream it was parsed from (`PayloadAbsoluteOffset()` in the source
repository). -/
structure MdatBox where
  PayloadStart : Nat
  Data : List Nat
deriving DecidableEq

/-- Modelled from the spec: `moof` holds the `mfhd` sequence number, one or
more `traf`s, and its `start_pos` in the surrounding stream.  The source's
`moof.Traf` fast accessor is the first element of `Trafs`. -/
structure MoofBox where
  StartPos : Nat
  SequenceNumber : Nat
  Trafs : List TrafBox
deriving DecidableEq

/-- Modelled from the spec: `prft` (producer reference time) is opaque to
the fragment logic; only its identity matters here. -/
structure PrftBox where
  Id : Nat
deriving DecidableEq

/-- A top-level box handed to `Fragment.AddChild`.  The `other` variant
stands for any box of the repository whose four-byte type is none of
`prft`/`moof`/`mdat`; its `Typ` field is that type string. -/
inductive FragChild where
  | prft (p : PrftBox)
  | moof (m : MoofBox)
  | mdat (m : MdatBox)
  | other (Typ : String) (Id : Nat)
deriving DecidableEq

/-- `Box.Type()` of a fragment child. -/
def FragChild.TypeOf : FragChild → String
  | .prft _ => "prft"
  | .moof _ => "moof"
  | .mdat _ => "mdat"
  | .other t _ => t

/-- In the repository every concrete box type has a distinct `Type()`
string, so a child whose variant is `other` never reports one of the three
accessor types (otherwise the Go type assertion in `AddChild` would panic).
Theorems about `AddChild` carry this as a hypothesis. -/
def WfChild : FragChild → Prop
  | .other t _ => t ≠ "prft" ∧ t ≠ "moof" ∧ t ≠ "mdat"
  | _ => True

instance : DecidablePred WfChild := by
  intro b
  cases b <;> simp [WfChild] <;> infer_instance

/-- `Fragment` - MP4 Fragment (`[prft] + moof + mdat`), from the source:
fast accessors plus all top-level boxes in order.  In Go the accessors are
pointers aliased into `Children`; here they hold the box values, and the
operations below update the accessor view, which is the view every
modelled claim reads. -/
structure Fragment where
  Prft : Option PrftBox
  Moof : Option MoofBox
  Mdat : Option MdatBox
  Children : List FragChild
deriving DecidableEq

/-- `NewFragment` - new empty fragment, from the source. -/
def NewFragment : Fragment :=
  { Prft := none, Moof := none, Mdat := none, Children := [] }

/-- `Fragment.AddChild` from the source: a `switch` on `b.Type()` updates
the matching fast accessor (with a type assertion), then the box is
appended to `Children` whatever its type. -/
def Fragment.AddChild (f : Fragment) (b : FragChild) : Fragment :=
  let f' :=
    match b with
    | .prft p => { f with Prft := some p }
    | .moof m => { f with Moof := some m }
    | .mdat m => { f with Mdat := some m }
    | .other _ _ => f
  { f' with Children := f'.Children ++ [b] }

/-- `Fragment.AddFullSampleToTrack` from the source, translated statement
by statement.  The Go `for _, traf = range f.Moof.Trafs` loop assigns the
loop variable each iteration and `break`s on a `tfhd.TrackID` match; when
no element matches, the variable is left holding the LAST element of the
slice, so the `traf == nil` test after the loop is true only when `Trafs`
is empty.  The body after the check is a `TODO` in the source: no sample
is appended, and `nil` (no error) is returned.  The outer `Option` is
`none` when `f.Moof` is nil (the range expression would dereference it). -/
def Fragment.AddFullSampleToTrack (f : Fragment) (_s : FullSample)
    (trackID : Nat) : Option (Except String Fragment) :=
  match f.Moof with
  | none => none
  | some moof =>
    let traf? : Option TrafBox :=
      match moof.Trafs.find? (fun tr => tr.Tfhd.TrackID == trackID) with
      | some tr => some tr
      | none => moof.Trafs.getLast?
    match traf? with
    | none => some (.error ("No track with trackID=" ++ toString trackID))
    | some _ => some (.ok f)

/-- `Fragment.AddFullSample` from the source: take the first `traf`'s first
`trun`; if its sample count is zero, set `tfdt.BaseMediaDecodeTime` to the
sample's decode time; append the sample tuple to the `trun` and the sample
data to the `mdat`.  `none` models the nil-pointer panics when `Moof`, the
first `traf`, its first `trun`, the (needed) `tfdt`, or `Mdat` is absent. -/
def Fragment.AddFullSample (f : Fragment) (s : FullSample) :
    Option Fragment :=
  match f.Moof with
  | none => none
  | some moof =>
    match moof.Trafs with
    | [] => none
    | traf :: trafRest =>
      match traf.Truns with
      | [] => none
      | trun :: trunRest =>
        let tfdt? : Option (Option TfdtBox) :=
          if trun.SampleCount = 0 then
            match traf.Tfdt with
            | none => none
            | some _ => some (some { BaseMediaDecodeTime := s.DecodeTime })
          else some traf.Tfdt
        match tfdt? with
        | none => none
        | some newTfdt =>
          let trun' := { trun with Samples := trun.Samples ++ [s.Sample] }
          let traf' := { traf with Tfdt := newTfdt,
                                   Truns := trun' :: trunRest }
          match f.Mdat with
          | none => none
          | some mdat =>
            some { f with
                     Moof := some { moof with Trafs := traf' :: trafRest },
                     Mdat := some { mdat with Data := mdat.Data ++ s.Data } }

/-! ## Sample resolver (`Fragment.GetFullSamples`)

The resolver body is in the analysed source; the helpers it calls
(`trun.AddSampleDefaultValues`, `trun.GetFullSamples`,
`tfhd.HasBaseDataOffset`, ...) are elsewhere in the repository and are
modelled from spec section 4.G. -/

/-- Modelled from the spec: resolve one sample's duration from the first
present source in the precedence per-sample → `tfhd` default → `trex`
default → zero. -/
def resolveDur (trun : TrunBox) (tfhd : TfhdBox) (trex : Option TrexBox)
    (s : Sample) : Nat :=
  if trun.HasSampleDuration then s.Dur
  else match tfhd.DefaultSampleDuration with
       | some d => d
       | none => match trex with
                 | some t => t.DefaultSampleDuration
                 | none => 0

/-- Modelled from the spec: resolve one sample's size, same precedence as
`resolveDur`. -/
def resolveSize (trun : TrunBox) (tfhd : TfhdBox) (trex : Option TrexBox)
    (s : Sample) : Nat :=
  if trun.HasSampleSize then s.Size
  else match tfhd.DefaultSampleSize with
       | some d => d
       | none => match trex with
                 | some t => t.DefaultSampleSize
                 | none => 0

/-- Modelled from the spec: resolve one sample's flags; for the very first
sample of the run (`first = true`) a present `first_sample_flags`
overrides the default chain, but not a present per-sample flags field. -/
def resolveFlags (trun : TrunBox) (tfhd : TfhdBox) (trex : Option TrexBox)
    (first : Bool) (s : Sample) : Nat :=
  if trun.HasSampleFlags then s.Flags
  else match first, trun.FirstSampleFlags with
       | true, some ff => ff
       | _, _ =>
         match tfhd.DefaultSampleFlags with
         | some d => d
         | none => match trex with
                   | some t => t.DefaultSampleFlags
                   | none => 0

/-- Modelled from the spec: the composition-time offset is the per-sample
field when present, else zero (there is no `tfhd`/`trex` default for it). -/
def resolveCts (trun : TrunBox) (s : Sample) : Int :=
  if trun.HasSampleCts then s.Cts else 0

/-- Modelled from the spec: `trun.AddSampleDefaultValues(tfhd, trex)`
resolves every sample of the run to concrete values. -/
def resolveSamples (trun : TrunBox) (tfhd : TfhdBox)
    (trex : Option TrexBox) : List Sample :=
  match trun.Samples with
  | [] => []
  | s0 :: rest =>
    { Dur := resolveDur trun tfhd trex s0,
      Size := resolveSize trun tfhd trex s0,
      Flags := resolveFlags trun tfhd trex true s0,
      Cts := resolveCts trun s0 } ::
    rest.map (fun s =>
      { Dur := resolveDur trun tfhd trex s,
        Size := resolveSize trun tfhd trex s,
        Flags := resolveFlags trun tfhd trex false s,
        Cts := resolveCts trun s })

/-- Modelled from the spec: the total duration returned by
`trun.AddSampleDefaultValues` is the sum of the resolved durations. -/
def trunTotalDuration (trun : TrunBox) (tfhd : TfhdBox)
    (trex : Option TrexBox) : Nat :=
  ((resolveSamples trun tfhd trex).map Sample.Dur).sum

/-- The run's base offset, translated from the source
(`fragment.go` lines 105-113): start from `0`; if
`tfhd.HasBaseDataOffset()` take `tfhd.BaseDataOffset`; else if
`tfhd.DefaultBaseIfMoof()` take `moof.StartPos`; then, if
`trun.HasDataOffset()`, replace it by
`uint64(int64(trun.DataOffset) + int64(baseOffset))`. -/
def baseOffsetCode (tfhd : TfhdBox) (moofStartPos : Nat)
    (trun : TrunBox) : Nat :=
  let base : Nat :=
    match tfhd.BaseDataOffset with
    | some v => v
    | none => if tfhd.DefaultBaseIsMoof then moofStartPos else 0
  match trun.DataOffset with
  | some d => u64ofI64 (wrapI64 (d + i64ofU64 base))
  | none => base

/-- The run's base offset written from the words of the specification
(spec section 4.G step 2): start with `0`; if `tfhd.has_base_data_offset`,
set to `tfhd.base_data_offset`; else if `tfhd.default_base_is_moof`, set
to `moof.start_pos`; if `trun.has_data_offset`, add the signed
`trun.data_offset` (64-bit arithmetic). -/
def baseOffsetSpec (tfhd : TfhdBox) (moofStartPos : Nat)
    (trun : TrunBox) : Nat :=
  let base : Nat :=
    match tfhd.BaseDataOffset with
    | some v => v
    | none => if tfhd.DefaultBaseIsMoof then moofStartPos else 0
  match trun.DataOffset with
  | some d => (((base : Int) + d) % 2 ^ 64).toNat
  | none => base

/-- Modelled from the spec: `trun.GetFullSamples(offset, baseTime, mdat)`
(spec section 4.G step 4) walks `mdat.Data` from `offset`, consuming each
resolved sample's `size` bytes and accumulating decode time by each
sample's duration. -/
def trunSamplesWalk (mdatData : List Nat) : List Sample → Nat → Nat →
    List FullSample
  | [], _, _ => []
  | s :: rest, offset, t =>
    { Sample := s, DecodeTime := t,
      Data := (mdatData.drop offset).take s.Size } ::
    trunSamplesWalk mdatData rest (offset + s.Size) (t + s.Dur)

/-- Modelled from the spec: full samples of one `trun`. -/
def trunFullSamples (trun : TrunBox) (tfhd : TfhdBox)
    (trex : Option TrexBox) (offset baseTime : Nat) (mdatData : List Nat) :
    List FullSample :=
  trunSamplesWalk mdatData (resolveSamples trun tfhd trex) offset baseTime

/-- The `traf` selection of `GetFullSamples` (source lines 84-98): with a
`trex`, scan `moof.Trafs` for a `tfhd.TrackID` match — `some none` means
"no match, return no samples and no error"; without a `trex`, take the
first `traf`, and `none` (panic) when there is none, since the source then
dereferences a nil `traf`. -/
def selectTraf (moof : MoofBox) (trex : Option TrexBox) :
    Option (Option TrafBox) :=
  match trex with
  | some t => some (moof.Trafs.find? (fun tr => tr.Tfhd.TrackID == t.TrackID))
  | none =>
    match moof.Trafs.head? with
    | some tr => some (some tr)
    | none => none

/-- The per-`trun` loop of `GetFullSamples` (source lines 103-121): for
each run compute the total duration and the base offset, translate the
offset to be `mdat`-relative with `uint64` wraparound subtraction, fail
when it exceeds `len(mdat.Data)`, otherwise collect the run's samples
(the offset is narrowed to `uint32` at the call, as in the source) and
advance the base time.  `mdat` is dereferenced only inside the loop, so a
missing `mdat` (`none`, a Go nil pointer) panics only when a run exists. -/
def processTruns (tfhd : TfhdBox) (trex : Option TrexBox)
    (moofStartPos : Nat) (mdat? : Option MdatBox) :
    Nat → List TrunBox → Option (Except String (List FullSample))
  | _, [] => some (.ok [])
  | baseTime, trun :: rest =>
    let totalDur := trunTotalDuration trun tfhd trex
    let baseOffset := baseOffsetCode tfhd moofStartPos trun
    match mdat? with
    | none => none
    | some mdat =>
      let offsetInMdat := u64sub baseOffset mdat.PayloadStart
      if offsetInMdat > mdat.Data.length then
        some (.error "Offset in mdata beyond size")
      else
        match processTruns tfhd trex moofStartPos mdat? (baseTime + totalDur)
                rest with
        | none => none
        | some (.error e) => some (.error e)
        | some (.ok tail) =>
          some (.ok (trunFullSamples trun tfhd trex (offsetInMdat % 2 ^ 32)
                       baseTime mdat.Data ++ tail))

/-- `Fragment.GetFullSamples` from the source: select the `traf` (see
`selectTraf`), read the base decode time from its `tfdt`, then run the
per-`trun` loop.  `none` models the nil-pointer panics (`Moof` nil, first
`traf` missing with `trex == nil`, `Tfdt` nil, `Mdat` nil inside the
loop). -/
def Fragment.GetFullSamples (f : Fragment) (trex : Option TrexBox) :
    Option (Except String (List FullSample)) :=
  match f.Moof with
  | none => none
  | some moof =>
    match selectTraf moof trex with
    | none => none
    | some none => some (.ok [])
    | some (some traf) =>
      match traf.Tfdt with
      | none => none
      | some tfdt =>
        processTruns traf.Tfhd trex moof.StartPos f.Mdat
          tfdt.BaseMediaDecodeTime traf.Truns

/-! ## The WebVTT box family (`wvtt.go`, `nmhd.go`)

A `Box` here is the sum of the box types defined in the analysed files.
Container variants (`wvtt`, `vttc`) hold their children recursively; the
fast accessors of the Go structs (`WvttBox.VttC`, `VttcBox.Payl`, ...) do
not participate in `Size`/`Encode` and are omitted.  Strings carried by the
text boxes are modelled as their byte lists. -/

inductive Box where
  | wvtt (DataReferenceIndex : Nat) (Children : List Box)
  | nmhd (Version : Nat) (Flags : Nat)
  | vttC (Config : List Nat)
  | vlab (SourceLabel : List Nat)
  | vtte
  | vttc (Children : List Box)
  | vsid (SourceID : Nat)
  | ctim (CueCurrentTime : List Nat)
  | iden (CueID : List Nat)
  | sttg (Settings : List Nat)
  | payl (CueText : List Nat)
  | vtta (CueAdditionalText : List Nat)

/-- `boxHeaderSize` of the source repository: 8 bytes. -/
def boxHeaderSize : Nat := 8

mutual

/-- `Size()` of each box, translated case by case from the source:
`wvtt` is `16 + Σ child.Size()`; `vttc` is `containerSize(children)
= boxHeaderSize + Σ child.Size()`; `nmhd` and `vsid` are
`boxHeaderSize + 4`; `vtte` is `boxHeaderSize`; each text box is
`boxHeaderSize + len(text)`. -/
def Box.Size : Box → Nat
  | .wvtt _ cs => 16 + sizeOfChildren cs
  | .nmhd _ _ => boxHeaderSize + 4
  | .vttC c => boxHeaderSize + c.length
  | .vlab l => boxHeaderSize + l.length
  | .vtte => boxHeaderSize
  | .vttc cs => boxHeaderSize + sizeOfChildren cs
  | .vsid _ => boxHeaderSize + 4
  | .ctim t => boxHeaderSize + t.length
  | .iden t => boxHeaderSize + t.length
  | .sttg t => boxHeaderSize + t.length
  | .payl t => boxHeaderSize + t.length
  | .vtta t => boxHeaderSize + t.length

/-- Sum of the children's sizes (the loop in `WvttBox.Size` and the
spec's `container_size`). -/
def sizeOfChildren : List Box → Nat
  | [] => 0
  | c :: cs => Box.Size c + sizeOfChildren cs

end

/-- Modelled from the spec: `encode_header` writes the 8-byte preamble
(32-bit size, then the four type bytes) and chooses the 64-bit form —
size field `1` followed by a 64-bit largesize after the type — when the
box size exceeds `2^32 - 1`. -/
def EncodeHeader (size : Nat) (typ : List Nat) : List Nat :=
  if size ≤ 2 ^ 32 - 1 then u32be size ++ typ
  else u32be 1 ++ typ ++ u64be size

mutual

/-- `Encode` of each box, translated case by case from the source.
`wvtt` writes its header, six zero bytes, the 16-bit data-reference
index, then its children in order; `vttc` writes header then children
(`EncodeContainer`); `nmhd` writes header then
`(uint32(Version) << 24) + Flags`; `vsid` writes header then the 32-bit
source ID; `vtte` is header only; each text box writes header then its
bytes. -/
def Box.Encode : Box → List Nat
  | .wvtt dri cs =>
    EncodeHeader (16 + sizeOfChildren cs) [119, 118, 116, 116] ++
      ([0, 0, 0, 0, 0, 0] ++ u16be dri) ++ encodeChildren cs
  | .nmhd v fl =>
    EncodeHeader (boxHeaderSize + 4) [110, 109, 104, 100] ++
      u32be (v * 2 ^ 24 + fl)
  | .vttC c => EncodeHeader (boxHeaderSize + c.length) [118, 116, 116, 67] ++ c
  | .vlab l => EncodeHeader (boxHeaderSize + l.length) [118, 108, 97, 98] ++ l
  | .vtte => EncodeHeader boxHeaderSize [118, 116, 116, 101]
  | .vttc cs =>
    EncodeHeader (boxHeaderSize + sizeOfChildren cs) [118, 116, 116, 99] ++
      encodeChildren cs
  | .vsid sid => EncodeHeader (boxHeaderSize + 4) [118, 115, 105, 100] ++
      u32be sid
  | .ctim t => EncodeHeader (boxHeaderSize + t.length) [99, 116, 105, 109] ++ t
  | .iden t => EncodeHeader (boxHeaderSize + t.length) [105, 100, 101, 110] ++ t
  | .sttg t => EncodeHeader (boxHeaderSize + t.length) [115, 116, 116, 103] ++ t
  | .payl t => EncodeHeader (boxHeaderSize + t.length) [112, 97, 121, 108] ++ t
  | .vtta t => EncodeHeader (boxHeaderSize + t.length) [118, 116, 116, 97] ++ t

/-- Children encoded in order (the loops in `WvttBox.Encode` and the
spec's `encode_container`). -/
def encodeChildren : List Box → List Nat
  | [] => []
  | c :: cs => Box.Encode c ++ encodeChildren cs

end

/-- Big-endian value of a byte list. -/
def beVal (l : List Nat) : Nat :=
  l.foldl (fun acc b => acc * 256 + b) 0

/-- First four bytes of a payload as Go's `data[0:4]` sees them when
`data` is the slice returned by `ioutil.ReadAll`: that slice always has
capacity at least 512 (the standard library allocates at least that
much), so re-slicing up to index 4 never panics even when fewer than 4
bytes were read — the missing positions read as the zero bytes of the
slice's unwritten spare capacity. -/
def padTo4 (l : List Nat) : List Nat :=
  (l ++ [0, 0, 0, 0]).take 4

/-- `flagsMask` of the source repository: the low 24 bits. -/
def flagsMask : Nat := 2 ^ 24 - 1

/-- `DecodeNmhd` from the source, acting on the payload bytes handed to
it: read a 32-bit version-and-flags word and split it.  The
`SliceReader` read is total for the same capacity reason as in
`padTo4`. -/
def DecodeNmhd (payload : List Nat) : Box :=
  let vf := beVal (padTo4 payload)
  Box.nmhd (vf / 2 ^ 24) (vf % (flagsMask + 1))

/-- `DecodeVtte` from the source: ignores its payload entirely. -/
def DecodeVtte (_payload : List Nat) : Box :=
  Box.vtte

/-- `DecodeVttC` from the source: the whole payload is the config text. -/
def DecodeVttC (payload : List Nat) : Box :=
  Box.vttC payload

/-- `DecodeVsid` from the source: reads the 32-bit source ID as
`binary.BigEndian.Uint32(data[0:4])`.  The outer `Option` models a Go
panic; the slice expression `data[0:4]` panics only when `4 > cap(data)`,
and `cap(data) ≥ 512` for the slice `ioutil.ReadAll` returns, so the
guard below is never taken: short payloads are read zero-padded (see
`padTo4`), not rejected. -/
def DecodeVsid (payload : List Nat) : Option (Except String Box) :=
  if 4 ≤ max 512 payload.length then
    some (.ok (Box.vsid (beVal (padTo4 payload))))
  else none

/-- Dispatch of the registry (spec section 4.C) restricted to the three
decoders named by the round-trip claim; other types are outside this
model (`none` here stands for "not modelled", and the round-trip theorems
quantify only over inputs this dispatch accepts). -/
def dispatchDecode (typ payload : List Nat) : Option Box :=
  if typ = [110, 109, 104, 100] then some (DecodeNmhd payload)
  else if typ = [118, 116, 116, 101] then some (DecodeVtte payload)
  else if typ = [118, 116, 116, 67] then some (DecodeVttC payload)
  else none

/-- Modelled from the spec: `decode_box` over a byte sequence holding
exactly one box.  The header codec (spec section 4.B) reads a 32-bit
size and four type bytes; size `1` switches to the 64-bit largesize
form; size `0` ("to end of file") is accepted only for a top-level
`mdat`, hence rejected here; a nonzero size smaller than the header's
own length is `MalformedHeader`.  The remaining `size - header` payload
bytes are handed to the registered decoder, and the byte sequence must
contain exactly `size` bytes. -/
def DecodeBox (bytes : List Nat) : Option Box :=
  match bytes with
  | b0 :: b1 :: b2 :: b3 :: t0 :: t1 :: t2 :: t3 :: rest =>
    let size32 := be4 b0 b1 b2 b3
    if size32 = 0 then none
    else if size32 = 1 then
      match rest with
      | c0 :: c1 :: c2 :: c3 :: c4 :: c5 :: c6 :: c7 :: payload =>
        let size := beVal [c0, c1, c2, c3, c4, c5, c6, c7]
        if size < 16 then none
        else if bytes.length = size then dispatchDecode [t0, t1, t2, t3] payload
        else none
      | _ => none
    else
      if size32 < 8 then none
      else if bytes.length = size32 then dispatchDecode [t0, t1, t2, t3] rest
      else none
  | _ => none

/-! ## Derived predicates and concrete fixtures used by the theorems -/

/-- The per-run out-of-range condition of `GetFullSamples` (source lines
114-117): the `mdat`-relative offset, obtained by `uint64` wraparound
subtraction of the `mdat` payload start from the run's base offset,
exceeds `len(mdat.Data)`. -/
def trunOvershoots (tfhd : TfhdBox) (moofStartPos : Nat) (mdat : MdatBox)
    (trun : TrunBox) : Prop :=
  u64sub (baseOffsetCode tfhd moofStartPos trun) mdat.PayloadStart >
    mdat.Data.length

instance (tfhd : TfhdBox) (moofStartPos : Nat) (mdat : MdatBox)
    (trun : TrunBox) : Decidable (trunOvershoots tfhd moofStartPos mdat trun) := by
  unfold trunOvershoots
  infer_instance

/-- The invariant of the fragment's fast accessors: each one, when set,
is an element of `Children`. -/
def AccessorsInChildren (f : Fragment) : Prop :=
  (∀ p, f.Prft = some p → FragChild.prft p ∈ f.Children) ∧
  (∀ m, f.Moof = some m → FragChild.moof m ∈ f.Children) ∧
  (∀ m, f.Mdat = some m → FragChild.mdat m ∈ f.Children)

/-- A `tfhd` with no optional field present. -/
def tfhdPlain (tid : Nat) : TfhdBox :=
  { TrackID := tid, BaseDataOffset := none, SampleDescriptionIndex := none,
    DefaultSampleDuration := none, DefaultSampleSize := none,
    DefaultSampleFlags := none, DefaultBaseIsMoof := false,
    DurationIsEmpty := false }

/-- An empty `trun` with all per-sample fields present, as
`CreateTrun` builds it. -/
def trunEmpty : TrunBox :=
  { DataOffset := none, FirstSampleFlags := none, HasSampleDuration := true,
    HasSampleSize := true, HasSampleFlags := true, HasSampleCts := true,
    Samples := [] }

/-- A single-track `traf` skeleton for track 1. -/
def trafEx : TrafBox :=
  { Tfhd := tfhdPlain 1, Tfdt := some { BaseMediaDecodeTime := 0 },
    Truns := [trunEmpty] }

/-- A `moof` with the single `traf` above. -/
def moofEx : MoofBox := { StartPos := 0, SequenceNumber := 7, Trafs := [trafEx] }

/-- An empty `mdat` parsed at payload offset 0. -/
def mdatEx : MdatBox := { PayloadStart := 0, Data := [] }

/-- A fresh single-track fragment, as `CreateFragment(7, 1)` builds it. -/
def fragEx : Fragment :=
  { Prft := none, Moof := some moofEx, Mdat := some mdatEx,
    Children := [FragChild.moof moofEx, FragChild.mdat mdatEx] }

/-- A concrete full sample. -/
def sampleEx : FullSample :=
  { Sample := { Dur := 10, Size := 4, Flags := 33554432, Cts := 0 },
    DecodeTime := 1000, Data := [222, 173, 190, 239] }

/-- A `trex` for track 2 (matching no `traf` of `fragEx`). -/
def trexEx2 : TrexBox :=
  { TrackID := 2, DefaultSampleDuration := 100, DefaultSampleSize := 0,
    DefaultSampleFlags := 0 }

/-- A `trun` whose data offset points 100 bytes into the stream. -/
def trunFar : TrunBox := { trunEmpty with DataOffset := some 100 }

/-- A `traf` holding only the far-pointing run. -/
def trafFar : TrafBox :=
  { Tfhd := tfhdPlain 1, Tfdt := some { BaseMediaDecodeTime := 0 },
    Truns := [trunFar] }

/-- A `moof` holding only `trafFar`. -/
def moofFar : MoofBox := { StartPos := 0, SequenceNumber := 1, Trafs := [trafFar] }

/-- A fragment whose only run starts beyond its empty `mdat`. -/
def fragFar : Fragment :=
  { Prft := none, Moof := some moofFar, Mdat := some mdatEx, Children := [] }

/-- A `tfhd` with an explicit base data offset of 100. -/
def tfhdBase100 : TfhdBox := { tfhdPlain 1 with BaseDataOffset := some 100 }

/-- A `trun` with the signed data offset `-4`. -/
def trunNeg4 : TrunBox := { trunEmpty with DataOffset := some (-4) }

/-- A 13-byte `nmhd` box: well-formed header, one trailing payload byte
beyond the 4 the decoder reads. -/
def c1Bytes : List Nat :=
  [0, 0, 0, 13, 110, 109, 104, 100, 1, 2, 3, 4, 5]

/-- The canonical 12-byte `nmhd` box with version 1 and flags 0x020304. -/
def c1BytesExact : List Nat :=
  [0, 0, 0, 12, 110, 109, 104, 100, 1, 2, 3, 4]

/-- A `vttC` config of `2^32` bytes, making the box size exceed
`2^32 - 1`. -/
def hugeConfig : List Nat := List.replicate (2 ^ 32) 0

/-- Child sequence exercising `AddChild`: a `prft`, an unrelated box, a
`moof` and an `mdat`. -/
def childrenEx : List FragChild :=
  [FragChild.prft { Id := 3 }, FragChild.other "styp" 0,
   FragChild.moof moofEx, FragChild.mdat mdatEx]

/-! ## Theorems -/

/-- C2: evaluation of `AddFullSampleToTrack` at a fragment whose only
`traf` carries track ID 1, called with the unmatched track ID 2.  The call
returns without an error (and without touching the fragment): after the Go
range loop the loop variable still holds the last `traf`, so the
`traf == nil` check that should produce the `UnknownTrack` error never
fires when `Trafs` is non-empty. -/
theorem AddFullSampleToTrack_unknown_track_no_error :
    fragEx.AddFullSampleToTrack sampleEx 2 = some (.ok fragEx) := rfl

/-- C3: evaluation of `AddFullSampleToTrack` at a fragment whose `traf`
matches the requested track ID 1.  The fragment comes back unchanged — in
particular its (empty) `trun` and (empty) `mdat` stay empty — because the
body of the function after locating the `traf` is an unimplemented `TODO`
in the source. -/
theorem AddFullSampleToTrack_no_append :
    fragEx.AddFullSampleToTrack sampleEx 1 = some (.ok fragEx) ∧
    trunEmpty.Samples = [] ∧ mdatEx.Data = [] := ⟨rfl, rfl, rfl⟩

/-- C9 (counterexample to the claim as stated): `DecodeVsid` on an empty
payload does not panic; it returns a `VsidBox` with source ID 0 and no
error, because the slice returned by `ioutil.ReadAll` has capacity at
least 512, making `data[0:4]` legal and zero-filled. -/
theorem DecodeVsid_short_payload_returns_without_panic :
    DecodeVsid [] = some (.ok (Box.vsid 0)) ∧ DecodeVsid [] ≠ none := by
  refine ⟨rfl, ?_⟩
  intro h
  rw [show DecodeVsid [] = some (Except.ok (Box.vsid 0)) from rfl] at h
  exact Option.noConfusion h

/-- C9 (amended): for every payload shorter than 4 bytes, `DecodeVsid`
returns — without panicking and with no error — a `VsidBox` whose source
ID is the big-endian 32-bit value of the payload zero-padded to 4 bytes. -/
theorem DecodeVsid_short_payload_zero_padded (payload : List Nat)
    (h : payload.length < 4) :
    DecodeVsid payload =
      some (.ok (Box.vsid
        (beVal (payload ++ List.replicate (4 - payload.length) 0)))) := by
  unfold DecodeVsid
  rw [if_pos (le_max_of_le_left (by norm_num))]
  have hpad : padTo4 payload =
      payload ++ List.replicate (4 - payload.length) 0 := by
    unfold padTo4
    rw [List.take_append_eq_append_take, List.take_of_length_le (by omega)]
    congr 1
    rw [show ([0, 0, 0, 0] : List Nat) = List.replicate 4 0 from rfl,
      List.take_replicate]
    congr 1
    omega
  rw [hpad]

/-- C9 witness: the two-byte payload `[1, 2]` decodes to source ID
`0x01020000`. -/
theorem DecodeVsid_short_payload_zero_padded_witness :
    ([1, 2] : List Nat).length < 4 ∧
    DecodeVsid [1, 2] =
      some (.ok (Box.vsid
        (beVal (([1, 2] : List Nat) ++
          List.replicate (4 - ([1, 2] : List Nat).length) 0)))) :=
  ⟨by decide, DecodeVsid_short_payload_zero_padded [1, 2] (by decide)⟩

/-- Helper: a single `AddChild` call preserves the accessor invariant and
appends the child to `Children`. -/
theorem addChild_step (f : Fragment) (b : FragChild)
    (h : AccessorsInChildren f) :
    AccessorsInChildren (f.AddChild b) ∧
    (f.AddChild b).Children = f.Children ++ [b] := by
  obtain ⟨hp, hm, hd⟩ := h
  cases b with
  | prft p =>
    refine ⟨⟨?_, ?_, ?_⟩, rfl⟩
    · intro x hx
      simp only [Fragment.AddChild] at hx
      obtain rfl := Option.some.inj hx
      exact List.mem_append_right _ (by simp)
    · intro x hx
      exact List.mem_append_left _ (hm x hx)
    · intro x hx
      exact List.mem_append_left _ (hd x hx)
  | moof m =>
    refine ⟨⟨?_, ?_, ?_⟩, rfl⟩
    · intro x hx
      exact List.mem_append_left _ (hp x hx)
    · intro x hx
      simp only [Fragment.AddChild] at hx
      obtain rfl := Option.some.inj hx
      exact List.mem_append_right _ (by simp)
    · intro x hx
      exact List.mem_append_left _ (hd x hx)
  | mdat m =>
    refine ⟨⟨?_, ?_, ?_⟩, rfl⟩
    · intro x hx
      exact List.mem_append_left _ (hp x hx)
    · intro x hx
      exact List.mem_append_left _ (hm x hx)
    · intro x hx
      simp only [Fragment.AddChild] at hx
      obtain rfl := Option.some.inj hx
      exact List.mem_append_right _ (by simp)
  | other t i =>
    refine ⟨⟨?_, ?_, ?_⟩, rfl⟩
    · intro x hx
      exact List.mem_append_left _ (hp x hx)
    · intro x hx
      exact List.mem_append_left _ (hm x hx)
    · intro x hx
      exact List.mem_append_left _ (hd x hx)

/-- Helper: folding `AddChild` over a list of children preserves the
accessor invariant and concatenates the children in call order. -/
theorem addChild_fold (bs : List FragChild) :
    ∀ f : Fragment, AccessorsInChildren f →
      AccessorsInChildren (bs.foldl Fragment.AddChild f) ∧
      (bs.foldl Fragment.AddChild f).Children = f.Children ++ bs := by
  induction bs with
  | nil => exact fun f h => ⟨h, by simp⟩
  | cons b bs ih =>
    intro f h
    obtain ⟨h1, h2⟩ := addChild_step f b h
    obtain ⟨h3, h4⟩ := ih (f.AddChild b) h1
    refine ⟨h3, ?_⟩
    rw [List.foldl_cons, h4, h2, List.append_assoc]
    simp

/-- C10: after any sequence of `AddChild` calls on a fresh fragment (each
child well-typed, i.e. no impostor box reporting type `prft`/`moof`/`mdat`
without being one, which would make the Go type assertion panic), the
fast accessors `Prft`, `Moof`, `Mdat` are each either `none` or an element
of `Children`, and `Children` is exactly the added boxes in call order,
whatever their types. -/
theorem AddChild_accessors_and_children (bs : List FragChild)
    (hwf : ∀ b ∈ bs, WfChild b) :
    AccessorsInChildren (bs.foldl Fragment.AddChild NewFragment) ∧
    (bs.foldl Fragment.AddChild NewFragment).Children = bs := by
  have h0 : AccessorsInChildren NewFragment := by
    refine ⟨?_, ?_, ?_⟩ <;> · intro x hx; simp [NewFragment] at hx
  obtain ⟨h1, h2⟩ := addChild_fold bs NewFragment h0
  exact ⟨h1, by simpa [NewFragment] using h2⟩

/-- C10 witness: a `prft`, an unrelated `styp` box, a `moof` and an
`mdat`, added in that order. -/
theorem AddChild_accessors_and_children_witness :
    (∀ b ∈ childrenEx, WfChild b) ∧
    (AccessorsInChildren (childrenEx.foldl Fragment.AddChild NewFragment) ∧
     (childrenEx.foldl Fragment.AddChild NewFragment).Children = childrenEx) :=
  ⟨by decide, AddChild_accessors_and_children childrenEx (by decide)⟩

/-- C4: `GetFullSamples` with a non-nil `trex` whose track ID matches no
`traf` returns the empty sample list and no error; with a nil `trex` the
result depends only on the fragment's first `traf` (dropping the other
`traf`s changes nothing). -/
theorem GetFullSamples_traf_selection (f : Fragment) (moof : MoofBox)
    (hmoof : f.Moof = some moof) :
    (∀ t : TrexBox, (∀ tr ∈ moof.Trafs, tr.Tfhd.TrackID ≠ t.TrackID) →
       f.GetFullSamples (some t) = some (.ok [])) ∧
    (∀ tr0 rest, moof.Trafs = tr0 :: rest →
       f.GetFullSamples none =
         Fragment.GetFullSamples
           { f with Moof := some { moof with Trafs := [tr0] } } none) := by
  constructor
  · intro t ht
    unfold Fragment.GetFullSamples
    rw [hmoof]
    have hfind : moof.Trafs.find? (fun tr => tr.Tfhd.TrackID == t.TrackID)
        = none := by
      apply List.find?_eq_none.mpr
      intro tr htr
      simpa using ht tr htr
    simp [selectTraf, hfind]
  · intro tr0 rest htr
    unfold Fragment.GetFullSamples
    rw [hmoof]
    simp [selectTraf, htr]

/-- C4 witness: on the single-track fragment `fragEx`, a `trex` for track
2 yields no samples and no error, and the nil-`trex` variant only reads
the first `traf`. -/
theorem GetFullSamples_traf_selection_witness :
    fragEx.GetFullSamples (some trexEx2) = some (.ok []) ∧
    fragEx.GetFullSamples none =
      Fragment.GetFullSamples
        { fragEx with Moof := some { moofEx with Trafs := [trafEx] } } none :=
  ⟨(GetFullSamples_traf_selection fragEx moofEx rfl).1 trexEx2 (by decide),
   (GetFullSamples_traf_selection fragEx moofEx rfl).2 trafEx [] rfl⟩

/-- C8: `AddFullSample` sets `tfdt.BaseMediaDecodeTime` to the sample's
decode time exactly when the (first) `trun`'s sample count was zero
before the call, and in every case appends the sample tuple to that
`trun` and the sample's bytes to the `mdat` data. -/
theorem AddFullSample_first_sample_tfdt (f : Fragment) (s : FullSample)
    (moof : MoofBox) (traf : TrafBox) (trun : TrunBox) (tfdt0 : TfdtBox)
    (mdat : MdatBox) (trafRest : List TrafBox) (trunRest : List TrunBox)
    (hmoof : f.Moof = some moof) (htrafs : moof.Trafs = traf :: trafRest)
    (htruns : traf.Truns = trun :: trunRest)
    (htfdt : traf.Tfdt = some tfdt0) (hmdat : f.Mdat = some mdat) :
    f.AddFullSample s =
      some { f with
        Moof := some { moof with Trafs :=
          { traf with
              Tfdt := some { BaseMediaDecodeTime :=
                if trun.SampleCount = 0 then s.DecodeTime
                else tfdt0.BaseMediaDecodeTime },
              Truns := { trun with Samples := trun.Samples ++ [s.Sample] }
                :: trunRest } :: trafRest },
        Mdat := some { mdat with Data := mdat.Data ++ s.Data } } := by
  obtain ⟨bt⟩ := tfdt0
  unfold Fragment.AddFullSample
  simp only [hmoof, htrafs, htruns, hmdat, htfdt]
  by_cases hc : trun.SampleCount = 0
  · simp [hc]
  · simp [hc]

/-- C8 witness: adding `sampleEx` to the fresh fragment `fragEx` (first
trun empty) sets the base decode time to 1000 and appends sample and
data. -/
theorem AddFullSample_first_sample_tfdt_witness :
    fragEx.AddFullSample sampleEx =
      some { fragEx with
        Moof := some { moofEx with Trafs :=
          { trafEx with
              Tfdt := some { BaseMediaDecodeTime :=
                if trunEmpty.SampleCount = 0 then sampleEx.DecodeTime
                else (0 : Nat) },
              Truns := { trunEmpty with
                Samples := trunEmpty.Samples ++ [sampleEx.Sample] } :: [] }
            :: [] },
        Mdat := some { mdatEx with Data := mdatEx.Data ++ sampleEx.Data } } :=
  AddFullSample_first_sample_tfdt fragEx sampleEx moofEx trafEx trunEmpty
    { BaseMediaDecodeTime := 0 } mdatEx [] [] rfl rfl rfl rfl rfl

/-- C5: the base offset computed by the source's `GetFullSamples` loop
(`baseOffsetCode`, used by `processTruns`) agrees with the
specification's description of it (`baseOffsetSpec`), for `uint64`-ranged
inputs and an `int32`-ranged `trun.DataOffset`: the chain of `int64`
conversions and two's-complement wrap in the source is exactly 64-bit
modular addition of the signed data offset to the base. -/
theorem baseOffset_code_matches_spec (tfhd : TfhdBox) (moofStartPos : Nat)
    (trun : TrunBox)
    (hbdo : ∀ v, tfhd.BaseDataOffset = some v → v < 2 ^ 64)
    (hsp : moofStartPos < 2 ^ 64)
    (hdo : ∀ d, trun.DataOffset = some d → -(2 ^ 31) ≤ d ∧ d < 2 ^ 31) :
    baseOffsetCode tfhd moofStartPos trun =
      baseOffsetSpec tfhd moofStartPos trun := by
  unfold baseOffsetCode baseOffsetSpec
  have harith : ∀ (base : Nat) (d : Int), base < 2 ^ 64 →
      -(2 ^ 31) ≤ d → d < 2 ^ 31 →
      u64ofI64 (wrapI64 (d + i64ofU64 base)) =
        (((base : Int) + d) % 2 ^ 64).toNat := by
    intro base d hb hd1 hd2
    unfold u64ofI64 wrapI64 i64ofU64
    split_ifs with h
    · omega
    · omega
  cases htb : tfhd.BaseDataOffset with
  | some v =>
    cases hd : trun.DataOffset with
    | none => rfl
    | some d =>
      obtain ⟨h1, h2⟩ := hdo d hd
      exact harith v d (hbdo v htb) h1 h2
  | none =>
    cases hd : trun.DataOffset with
    | none => rfl
    | some d =>
      obtain ⟨h1, h2⟩ := hdo d hd
      by_cases hm : tfhd.DefaultBaseIsMoof
      · simp only [hm, if_true]
        exact harith moofStartPos d hsp h1 h2
      · simp only [hm, if_false]
        exact harith 0 d (by norm_num) h1 h2

/-- C5 witness: base data offset 100 with data offset `-4` resolves to
96 under both the source computation and the specification formula. -/
theorem baseOffset_code_matches_spec_witness :
    baseOffsetCode tfhdBase100 0 trunNeg4 =
      baseOffsetSpec tfhdBase100 0 trunNeg4 :=
  baseOffset_code_matches_spec tfhdBase100 0 trunNeg4
    (fun v hv => by
      rw [show tfhdBase100.BaseDataOffset = some 100 from rfl] at hv
      injection hv with h
      omega)
    (by norm_num)
    (fun d hd => by
      rw [show trunNeg4.DataOffset = some (-4) from rfl] at hd
      injection hd with h
      constructor <;> omega)

/-- Helper: if any run of the list overshoots the `mdat`, the per-`trun`
loop of `GetFullSamples` returns the out-of-range error (and hence no
samples), whatever the base time. -/
theorem processTruns_error_of_overshoot (tfhd : TfhdBox)
    (trex : Option TrexBox) (msp : Nat) (mdat : MdatBox) :
    ∀ (truns : List TrunBox) (baseTime : Nat),
      (∃ trun ∈ truns, trunOvershoots tfhd msp mdat trun) →
      processTruns tfhd trex msp (some mdat) baseTime truns =
        some (.error "Offset in mdata beyond size") := by
  intro truns
  induction truns with
  | nil => intro bt h; simp at h
  | cons trun rest ih =>
    intro bt h
    by_cases hov : trunOvershoots tfhd msp mdat trun
    · have hov2 : u64sub (baseOffsetCode tfhd msp trun) mdat.PayloadStart >
          mdat.Data.length := hov
      simp only [processTruns]
      rw [if_pos hov2]
    · have hrest : ∃ t ∈ rest, trunOvershoots tfhd msp mdat t := by
        rcases h with ⟨t, ht, hto⟩
        rcases List.mem_cons.mp ht with rfl | hmem
        · exact absurd hto hov
        · exact ⟨t, hmem, hto⟩
      have hov2 : ¬ (u64sub (baseOffsetCode tfhd msp trun) mdat.PayloadStart >
          mdat.Data.length) := hov
      simp only [processTruns]
      rw [if_neg hov2, ih _ hrest]

/-- C6: whenever some `trun` of the selected `traf` has an
`mdat`-relative offset (64-bit wraparound difference between its base
offset and the `mdat` payload start) exceeding `len(mdat.Data)`,
`GetFullSamples` fails with the offset-out-of-range error and returns no
samples. -/
theorem GetFullSamples_offset_beyond_mdat_errors (f : Fragment)
    (moof : MoofBox) (mdat : MdatBox) (traf : TrafBox) (tfdt0 : TfdtBox)
    (trex : Option TrexBox)
    (hmoof : f.Moof = some moof) (hmdat : f.Mdat = some mdat)
    (hsel : selectTraf moof trex = some (some traf))
    (htfdt : traf.Tfdt = some tfdt0)
    (hover : ∃ trun ∈ traf.Truns,
      trunOvershoots traf.Tfhd moof.StartPos mdat trun) :
    f.GetFullSamples trex = some (.error "Offset in mdata beyond size") := by
  unfold Fragment.GetFullSamples
  rw [hmoof]
  simp only [hsel, htfdt, hmdat]
  exact processTruns_error_of_overshoot _ _ _ _ _ _ hover

/-- C6 witness: a fragment whose only run points 100 bytes past an empty
`mdat` payload. -/
theorem GetFullSamples_offset_beyond_mdat_errors_witness :
    fragFar.GetFullSamples none =
      some (.error "Offset in mdata beyond size") :=
  GetFullSamples_offset_beyond_mdat_errors fragFar moofFar mdatEx trafFar
    { BaseMediaDecodeTime := 0 } none rfl rfl rfl rfl
    ⟨trunFar, by decide, by decide⟩

/-- Helper: for a box size within `uint32` range the header is the plain
8-byte form. -/
theorem encodeHeader_length_of_small (s : Nat) (typ : List Nat)
    (h : s ≤ 2 ^ 32 - 1) : (EncodeHeader s typ).length = 4 + typ.length := by
  unfold EncodeHeader
  rw [if_pos h]
  simp [u32be]
  omega

mutual

/-- Helper: size agreement for a single box whose size fits `uint32`
(children included, since a child's size is bounded by its parent's). -/
theorem encode_length_aux : ∀ b : Box, Box.Size b ≤ 2 ^ 32 - 1 →
    (Box.Encode b).length = Box.Size b
  | .wvtt dri cs, h => by
    simp only [Box.Size] at h ⊢
    have hcs : sizeOfChildren cs ≤ 2 ^ 32 - 1 := by omega
    simp only [Box.Encode, List.length_append,
      encodeHeader_length_of_small _ _ h,
      encodeChildren_length_aux cs hcs, u16be]
    simp
    try omega
  | .nmhd v fl, h => by
    simp only [Box.Size] at h ⊢
    simp only [Box.Encode, List.length_append,
      encodeHeader_length_of_small _ _ h, u32be]
    simp [boxHeaderSize]
    try omega
  | .vttC c, h => by
    simp only [Box.Size] at h ⊢
    simp only [Box.Encode, List.length_append,
      encodeHeader_length_of_small _ _ h]
    simp [boxHeaderSize]
    try omega
  | .vlab l, h => by
    simp only [Box.Size] at h ⊢
    simp only [Box.Encode, List.length_append,
      encodeHeader_length_of_small _ _ h]
    simp [boxHeaderSize]
    try omega
  | .vtte, h => by
    simp only [Box.Size] at h ⊢
    simp only [Box.Encode, encodeHeader_length_of_small _ _ h]
    simp [boxHeaderSize]
    try omega
  | .vttc cs, h => by
    simp only [Box.Size] at h ⊢
    have hcs : sizeOfChildren cs ≤ 2 ^ 32 - 1 := by
      simp only [boxHeaderSize] at h; omega
    simp only [Box.Encode, List.length_append,
      encodeHeader_length_of_small _ _ h,
      encodeChildren_length_aux cs hcs]
    simp [boxHeaderSize]
    try omega
  | .vsid sid, h => by
    simp only [Box.Size] at h ⊢
    simp only [Box.Encode, List.length_append,
      encodeHeader_length_of_small _ _ h, u32be]
    simp [boxHeaderSize]
    try omega
  | .ctim t, h => by
    simp only [Box.Size] at h ⊢
    simp only [Box.Encode, List.length_append,
      encodeHeader_length_of_small _ _ h]
    simp [boxHeaderSize]
    try omega
  | .iden t, h => by
    simp only [Box.Size] at h ⊢
    simp only [Box.Encode, List.length_append,
      encodeHeader_length_of_small _ _ h]
    simp [boxHeaderSize]
    try omega
  | .sttg t, h => by
    simp only [Box.Size] at h ⊢
    simp only [Box.Encode, List.length_append,
      encodeHeader_length_of_small _ _ h]
    simp [boxHeaderSize]
    try omega
  | .payl t, h => by
    simp only [Box.Size] at h ⊢
    simp only [Box.Encode, List.length_append,
      encodeHeader_length_of_small _ _ h]
    simp [boxHeaderSize]
    try omega
  | .vtta t, h => by
    simp only [Box.Size] at h ⊢
    simp only [Box.Encode, List.length_append,
      encodeHeader_length_of_small _ _ h]
    simp [boxHeaderSize]
    try omega

/-- Helper: size agreement for an encoded child list. -/
theorem encodeChildren_length_aux : ∀ cs : List Box,
    sizeOfChildren cs ≤ 2 ^ 32 - 1 →
    (encodeChildren cs).length = sizeOfChildren cs
  | [], _ => rfl
  | c :: cs, h => by
    simp only [sizeOfChildren] at h ⊢
    have h1 : Box.Size c ≤ 2 ^ 32 - 1 := by omega
    have h2 : sizeOfChildren cs ≤ 2 ^ 32 - 1 := by omega
    simp only [encodeChildren, List.length_append,
      encode_length_aux c h1, encodeChildren_length_aux cs h2]

end

/-- C7 (amended): for every box of the WebVTT/nmhd family whose size fits a
32-bit size field (`Size() ≤ 2^32 - 1`), `Encode` writes exactly `Size()`
bytes.  (Beyond that bound the spec's header codec switches to the 16-byte
largesize form, which `Size()` does not account for.) -/
theorem Encode_length_eq_Size_of_small (b : Box)
    (h : Box.Size b ≤ 2 ^ 32 - 1) :
    (Box.Encode b).length = Box.Size b :=
  encode_length_aux b h

/-- C7 witness: a `wvtt` sample entry containing one `vttC` child. -/
theorem Encode_length_eq_Size_of_small_witness :
    Box.Size (Box.wvtt 1 [Box.vttC [87, 69, 66, 86, 84, 84]]) ≤ 2 ^ 32 - 1 ∧
    (Box.Encode (Box.wvtt 1 [Box.vttC [87, 69, 66, 86, 84, 84]])).length =
      Box.Size (Box.wvtt 1 [Box.vttC [87, 69, 66, 86, 84, 84]]) :=
  ⟨by decide, Encode_length_eq_Size_of_small _ (by decide)⟩

/-- Helper: `Size` of a `vttC` box, as an equation usable without
reducing the (possibly huge) config value. -/
theorem size_vttC_eq (c : List Nat) :
    Box.Size (Box.vttC c) = boxHeaderSize + c.length := rfl

/-- Helper: `Encode` of a `vttC` box, as an equation usable without
reducing the (possibly huge) config value. -/
theorem encode_vttC_eq (c : List Nat) :
    Box.Encode (Box.vttC c) =
      EncodeHeader (boxHeaderSize + c.length) [118, 116, 116, 67] ++ c := rfl

/-- C7 (counterexample to the claim as stated): a `vttC` box whose config
is `2^32` bytes long has `Size() = 2^32 + 8`, but its encoding carries the
16-byte largesize header, so `Encode` writes `2^32 + 16` bytes. -/
theorem Encode_length_ne_Size_large_box :
    (Box.Encode (Box.vttC hugeConfig)).length ≠
      Box.Size (Box.vttC hugeConfig) := by
  have hl : hugeConfig.length = 2 ^ 32 := List.length_replicate _ _
  have hs : Box.Size (Box.vttC hugeConfig) = 8 + 2 ^ 32 := by
    rw [size_vttC_eq, hl]
    exact rfl
  have he : (Box.Encode (Box.vttC hugeConfig)).length = 16 + 2 ^ 32 := by
    rw [encode_vttC_eq, List.length_append, hl]
    show (u32be 1 ++ [118, 116, 116, 67] ++
      u64be (boxHeaderSize + 2 ^ 32)).length + 2 ^ 32 = 16 + 2 ^ 32
    norm_num [u32be, u64be]
  omega

/-- C1 (amended): every byte sequence that one of the three named decoders
accepts, and whose length equals the decoded box's `Size()`, is reproduced
exactly by `Encode`.  (The length proviso is forced by the counterexample:
these decoders tolerate trailing payload bytes, which `Encode` does not
rewrite.) -/
theorem DecodeBox_length_match_roundtrip (bytes : List Nat) (B : Box)
    (hb : ∀ x ∈ bytes, x < 256)
    (hdec : DecodeBox bytes = some B)
    (hlen : bytes.length = Box.Size B) :
    Box.Encode B = bytes := by
  rcases bytes with _ | ⟨b0, _ | ⟨b1, _ | ⟨b2, _ | ⟨b3, _ | ⟨t0, _ | ⟨t1,
    _ | ⟨t2, _ | ⟨t3, rest⟩⟩⟩⟩⟩⟩⟩⟩
  · simp [DecodeBox] at hdec
  · simp [DecodeBox] at hdec
  · simp [DecodeBox] at hdec
  · simp [DecodeBox] at hdec
  · simp [DecodeBox] at hdec
  · simp [DecodeBox] at hdec
  · simp [DecodeBox] at hdec
  · simp [DecodeBox] at hdec
  simp only [DecodeBox] at hdec
  by_cases h0 : be4 b0 b1 b2 b3 = 0
  · rw [if_pos h0] at hdec
    exact absurd hdec (by simp)
  rw [if_neg h0] at hdec
  by_cases h1 : be4 b0 b1 b2 b3 = 1
  · rw [if_pos h1] at hdec
    rcases rest with _ | ⟨c0, _ | ⟨c1, _ | ⟨c2, _ | ⟨c3, _ | ⟨c4, _ | ⟨c5,
      _ | ⟨c6, _ | ⟨c7, payload⟩⟩⟩⟩⟩⟩⟩⟩
    · simp at hdec
    · simp at hdec
    · simp at hdec
    · simp at hdec
    · simp at hdec
    · simp at hdec
    · simp at hdec
    · simp at hdec
    by_cases hsz : beVal [c0, c1, c2, c3, c4, c5, c6, c7] < 16
    · simp only [if_pos hsz] at hdec
      exact absurd hdec (by simp)
    simp only [if_neg hsz] at hdec
    by_cases hleq : (b0 :: b1 :: b2 :: b3 :: t0 :: t1 :: t2 :: t3 :: c0 ::
        c1 :: c2 :: c3 :: c4 :: c5 :: c6 :: c7 :: payload).length =
        beVal [c0, c1, c2, c3, c4, c5, c6, c7]
    · simp only [if_pos hleq] at hdec
      simp only [dispatchDecode] at hdec
      by_cases ht1 : [t0, t1, t2, t3] = ([110, 109, 104, 100] : List Nat)
      · rw [if_pos ht1] at hdec
        obtain rfl := Option.some.inj hdec
        simp only [DecodeNmhd, Box.Size, boxHeaderSize, List.length_cons,
          List.length_nil] at hlen
        omega
      rw [if_neg ht1] at hdec
      by_cases ht2 : [t0, t1, t2, t3] = ([118, 116, 116, 101] : List Nat)
      · rw [if_pos ht2] at hdec
        obtain rfl := Option.some.inj hdec
        simp only [DecodeVtte, Box.Size, boxHeaderSize, List.length_cons,
          List.length_nil] at hlen
        omega
      rw [if_neg ht2] at hdec
      by_cases ht3 : [t0, t1, t2, t3] = ([118, 116, 116, 67] : List Nat)
      · rw [if_pos ht3] at hdec
        obtain rfl := Option.some.inj hdec
        simp only [DecodeVttC, Box.Size, boxHeaderSize, List.length_cons,
          List.length_nil] at hlen
        omega
      rw [if_neg ht3] at hdec
      exact absurd hdec (by simp)
    · simp only [if_neg hleq] at hdec
      exact absurd hdec (by simp)
  rw [if_neg h1] at hdec
  by_cases hlt : be4 b0 b1 b2 b3 < 8
  · rw [if_pos hlt] at hdec
    exact absurd hdec (by simp)
  rw [if_neg hlt] at hdec
  by_cases hql : (b0 :: b1 :: b2 :: b3 :: t0 :: t1 :: t2 :: t3 ::
      rest).length = be4 b0 b1 b2 b3
  case neg =>
    rw [if_neg hql] at hdec
    exact absurd hdec (by simp)
  rw [if_pos hql] at hdec
  simp only [dispatchDecode] at hdec
  have hb0 := hb b0 (by simp)
  have hb1 := hb b1 (by simp)
  have hb2 := hb b2 (by simp)
  have hb3 := hb b3 (by simp)
  by_cases ht1 : [t0, t1, t2, t3] = ([110, 109, 104, 100] : List Nat)
  · rw [if_pos ht1] at hdec
    obtain ⟨rfl, rfl, rfl, rfl⟩ : t0 = 110 ∧ t1 = 109 ∧ t2 = 104 ∧ t3 = 100 := by
      simpa using ht1
    obtain rfl := Option.some.inj hdec
    have hr4 : rest.length = 4 := by
      have h := hlen
      simp only [DecodeNmhd, Box.Size, boxHeaderSize, List.length_cons,
        List.length_nil] at h
      omega
    rcases rest with _ | ⟨r0, _ | ⟨r1, _ | ⟨r2, _ | ⟨r3, rtl⟩⟩⟩⟩
    · simp at hr4
    · simp at hr4
    · simp at hr4
    · simp at hr4
    obtain rfl : rtl = [] := by
      simp only [List.length_cons] at hr4
      exact List.length_eq_zero.mp (by omega)
    have hr0 := hb r0 (by simp)
    have hr1 := hb r1 (by simp)
    have hr2 := hb r2 (by simp)
    have hr3 := hb r3 (by simp)
    have hsz12 : be4 b0 b1 b2 b3 = 12 := by
      have h := hql.symm
      simpa using h
    have hdecn : DecodeNmhd [r0, r1, r2, r3] =
        Box.nmhd (beVal [r0, r1, r2, r3] / 2 ^ 24)
          (beVal [r0, r1, r2, r3] % 2 ^ 24) := rfl
    rw [hdecn]
    have henc : Box.Encode (Box.nmhd (beVal [r0, r1, r2, r3] / 2 ^ 24)
        (beVal [r0, r1, r2, r3] % 2 ^ 24)) =
        [0, 0, 0, 12, 110, 109, 104, 100] ++
          u32be (beVal [r0, r1, r2, r3] / 2 ^ 24 * 2 ^ 24 +
            beVal [r0, r1, r2, r3] % 2 ^ 24) := rfl
    rw [henc, Nat.div_add_mod']
    simp only [be4] at hsz12
    simp only [u32be, beVal, List.foldl, List.cons_append, List.nil_append,
      List.cons.injEq, eq_self_iff_true, true_and, and_true]
    omega
  rw [if_neg ht1] at hdec
  by_cases ht2 : [t0, t1, t2, t3] = ([118, 116, 116, 101] : List Nat)
  · rw [if_pos ht2] at hdec
    obtain ⟨rfl, rfl, rfl, rfl⟩ : t0 = 118 ∧ t1 = 116 ∧ t2 = 116 ∧ t3 = 101 := by
      simpa using ht2
    obtain rfl := Option.some.inj hdec
    have hre : rest = [] := by
      have h := hlen
      simp only [DecodeVtte, Box.Size, boxHeaderSize, List.length_cons,
        List.length_nil] at h
      exact List.length_eq_zero.mp (by omega)
    subst hre
    have hsz8 : be4 b0 b1 b2 b3 = 8 := by
      have h := hql.symm
      simpa using h
    have henc : Box.Encode (DecodeVtte []) =
        [0, 0, 0, 8, 118, 116, 116, 101] := rfl
    rw [henc]
    simp only [be4] at hsz8
    simp only [List.cons.injEq, eq_self_iff_true, true_and, and_true]
    omega
  rw [if_neg ht2] at hdec
  by_cases ht3 : [t0, t1, t2, t3] = ([118, 116, 116, 67] : List Nat)
  · rw [if_pos ht3] at hdec
    obtain ⟨rfl, rfl, rfl, rfl⟩ : t0 = 118 ∧ t1 = 116 ∧ t2 = 116 ∧ t3 = 67 := by
      simpa using ht3
    obtain rfl := Option.some.inj hdec
    have hsz : be4 b0 b1 b2 b3 = 8 + rest.length := by
      have h := hql
      simp only [List.length_cons] at h
      omega
    have hsmall : boxHeaderSize + rest.length ≤ 2 ^ 32 - 1 := by
      simp only [be4] at hsz
      simp only [boxHeaderSize]
      omega
    show Box.Encode (Box.vttC rest) = _
    rw [encode_vttC_eq]
    unfold EncodeHeader
    rw [if_pos hsmall]
    simp only [be4] at hsz
    simp only [boxHeaderSize, u32be, List.cons_append, List.nil_append,
      List.append_cancel_right_eq, List.cons.injEq, eq_self_iff_true,
      true_and, and_true]
    omega
  rw [if_neg ht3] at hdec
  exact absurd hdec (by simp)

/-- C1 (counterexample to the claim as stated): the 13-byte input
`c1Bytes` (an `nmhd` box with declared size 13 and a fifth, trailing
payload byte) decodes successfully via `DecodeNmhd`, but re-encoding the
resulting box yields the canonical 12 bytes, not the original input. -/
theorem DecodeBox_trailing_bytes_not_roundtrip :
    DecodeBox c1Bytes = some (Box.nmhd 1 131844) ∧
    Box.Encode (Box.nmhd 1 131844) ≠ c1Bytes := ⟨rfl, by decide⟩

/-- C1 witness: the canonical 12-byte `nmhd` box round-trips. -/
theorem DecodeBox_length_match_roundtrip_witness :
    (∀ x ∈ c1BytesExact, x < 256) ∧
    DecodeBox c1BytesExact = some (Box.nmhd 1 131844) ∧
    c1BytesExact.length = Box.Size (Box.nmhd 1 131844) ∧
    Box.Encode (Box.nmhd 1 131844) = c1BytesExact :=
  ⟨by decide, rfl, rfl,
   DecodeBox_length_match_roundtrip c1BytesExact (Box.nmhd 1 131844)
     (by decide) rfl rfl⟩
